import Mathlib

/-!
Shallow embedding of `photos2.py` (photo deduplication by perceptual hashing).

The program converts each image into a fingerprint string (`str(imagehash.average_hash(img,
hash_size))`), deduplicates by exact fingerprint equality (`threshold <= 0`) or by a greedy
similarity scan against previously accepted representatives (`threshold > 0`), and then moves
or copies one representative per fingerprint into an output directory, renaming on collisions.

Image decoding and the average-hash transform are external collaborators (PIL / imagehash);
the embedding takes, for each input file, the outcome the decode-and-hash step produced for
it: a fingerprint, a `PIL.UnidentifiedImageError`, or some other exception.
`_calculate_similarity` compares the two hash strings position-by-position; everything the
deduplication logic does is generic in the character alphabet, so `Fingerprint` abstracts
the compared vector with a two-valued alphabet.  The hash string itself is the HEXADECIMAL
serialization of the underlying bit vector (`imagehash._binary_array_to_hex`, 4 bits per
character), which matters exactly where bit-level and character-level counts diverge; that
serialization is modelled separately by `HexString`/`hexSerialize`/`calculate_similarity_hex`.
Python floats are modelled as exact rationals.
-/

/-- A perceptual-hash fingerprint: the ordered vector of hash-string elements
that `str(imagehash.average_hash(img, hash_size))` produces, compared
position-by-position by `_calculate_similarity`.  The deduplication logic is
generic in the element alphabet, so it is abstracted here with a two-valued
one; the actual 16-valued hexadecimal alphabet is modelled by `HexString`
below, where the bit-versus-character distinction is what is at stake. -/
abbrev Fingerprint := List Bool

/-- Outcome of `Image.open(filepath)` + `imagehash.average_hash` for one file:
success with a fingerprint, `UnidentifiedImageError` (caught at photos2.py:100,
logged as a warning), or any other exception (caught at photos2.py:102, logged
as an error). -/
inductive DecodeOutcome where
  | ok (fp : Fingerprint)
  | unidentified
  | failed
deriving DecidableEq, Repr

/-- One input file: its path together with what decoding it yields. -/
abbrev FileEntry := String × DecodeOutcome

/-- The `unique_images` Python dict, as an association list in insertion order:
`d[k] = v` keeps an existing key's position and replaces its value, and appends
a fresh key at the end. -/
abbrev HashTable := List (Fingerprint × String)

/-- `diff_bits = sum(bit1 != bit2 for bit1, bit2 in zip(hash1, hash2))`
(photos2.py:111). -/
def diffBits (hash1 hash2 : Fingerprint) : Nat :=
  (hash1.zip hash2).countP (fun b => b.1 != b.2)

/-- `Photo._calculate_similarity` (photos2.py:107-112): `0.0` on unequal lengths,
otherwise `100 - (diff_bits * 100 / len(hash1))`, with Python's true division
modelled exactly in `ℚ`. -/
def calculate_similarity (hash1 hash2 : Fingerprint) : ℚ :=
  if hash1.length ≠ hash2.length then 0
  else 100 - ((diffBits hash1 hash2 : ℚ) * 100 / (hash1.length : ℚ))

/-- One character of the serialized hash string.  `str(imagehash.average_hash(...))`
yields a hexadecimal string (`imagehash._binary_array_to_hex`), so each
character takes one of 16 values and encodes 4 consecutive bits. -/
abbrev HexDigit := Fin 16

/-- The hash string as the program actually holds it (`hash_value` at
photos2.py:82): one `HexDigit` per character. -/
abbrev HexString := List HexDigit

/-- Pack four consecutive bits, most significant first, into one hexadecimal
character, as `imagehash._binary_array_to_hex` does. -/
def hexDigitOfBits (b3 b2 b1 b0 : Bool) : HexDigit :=
  ⟨8 * b3.toNat + 4 * b2.toNat + 2 * b1.toNat + b0.toNat, by
    rcases b3 <;> rcases b2 <;> rcases b1 <;> rcases b0 <;> decide⟩

/-- Serialization of the row-major bit vector into the hexadecimal hash string
(`imagehash._binary_array_to_hex`): each consecutive group of four bits becomes
one character, most significant bit first.  Modelled for bit-lengths divisible
by 4 (`hash_size` even, e.g. the default 8 giving 64 bits / 16 characters),
where imagehash's left-padding of the leading character never applies. -/
def hexSerialize : List Bool → HexString
  | b3 :: b2 :: b1 :: b0 :: rest => hexDigitOfBits b3 b2 b1 b0 :: hexSerialize rest
  | [] => []
  | [_] => []
  | [_, _] => []
  | [_, _, _] => []

/-- `diff_bits` (photos2.py:111) as the program actually computes it on
hexadecimal hash strings: the number of differing CHARACTERS. -/
def hexDiff (s1 s2 : HexString) : Nat :=
  (s1.zip s2).countP (fun c => c.1 != c.2)

/-- `Photo._calculate_similarity` (photos2.py:107-112) applied to the actual
hexadecimal hash strings the program passes in: the identical body, at the
16-character alphabet, so `len(hash1)` is the CHARACTER count (bit-length / 4)
and `diff_bits` counts character mismatches, not bit mismatches. -/
def calculate_similarity_hex (s1 s2 : HexString) : ℚ :=
  if s1.length ≠ s2.length then 0
  else 100 - ((hexDiff s1 s2 : ℚ) * 100 / (s1.length : ℚ))

/-- Python dict assignment `unique_images[hash_value] = filepath`: update in
place when the key is present, append otherwise. -/
def dictInsert (d : HashTable) (k : Fingerprint) (v : String) : HashTable :=
  if d.any (fun p => p.1 == k) then
    d.map (fun p => if p.1 == k then (p.1, v) else p)
  else d ++ [(k, v)]

/-- Dict lookup `unique_images[k]` (first — and by construction only — entry
with that key). -/
def dictLookup (d : HashTable) (k : Fingerprint) : Option String :=
  (d.find? (fun p => p.1 == k)).map (·.2)

/-- The body of the per-file branch of `find_unique_images` (photos2.py:84-94)
acting on the `unique_images` dict, for one successfully hashed file
`(filepath, hash_value)`: with `threshold > 0`, scan every existing hash and
drop the file if any has similarity ≥ threshold, else insert; with
`threshold <= 0`, insert unconditionally. -/
def stepOk (threshold : ℤ) (d : HashTable) (e : String × Fingerprint) : HashTable :=
  if threshold > 0 then
    if d.any (fun p => decide ((threshold : ℚ) ≤ calculate_similarity e.2 p.1)) then d
    else dictInsert d e.2 e.1
  else dictInsert d e.2 e.1

/-- Observable state of one `find_unique_images` run: the `unique_images` dict
plus the counts of warning logs (`UnidentifiedImageError`, photos2.py:100-101)
and error logs (other exceptions, photos2.py:102-103). -/
structure FindState where
  uniqueImages : HashTable
  warnCount : Nat
  errorCount : Nat
deriving DecidableEq, Repr

/-- One iteration of the `for i, filepath in enumerate(files, 1)` loop of
`find_unique_images` (photos2.py:79-103).  The progress log at photos2.py:96-98
touches no state and is omitted. -/
def stepFile (threshold : ℤ) (st : FindState) (e : FileEntry) : FindState :=
  match e.2 with
  | .ok fp => { st with uniqueImages := stepOk threshold st.uniqueImages (e.1, fp) }
  | .unidentified => { st with warnCount := st.warnCount + 1 }
  | .failed => { st with errorCount := st.errorCount + 1 }

/-- Run `find_unique_images` over the whole file list, starting from the empty
dict (`unique_images = {}`, photos2.py:76) and zero log counts. -/
def findRun (files : List FileEntry) (threshold : ℤ) : FindState :=
  files.foldl (stepFile threshold) ⟨[], 0, 0⟩

/-- `Photo.find_unique_images` (photos2.py:64-105): the returned dict mapping
hash values to file paths.  The `hash_size` parameter only feeds the external
`average_hash`, which is part of the per-file `DecodeOutcome` input here. -/
def find_unique_images (files : List FileEntry) (threshold : ℤ) : HashTable :=
  (findRun files threshold).uniqueImages

/-- The successfully hashed files, in processing order, as (path, fingerprint). -/
def okEntries (files : List FileEntry) : List (String × Fingerprint) :=
  files.filterMap (fun e => match e.2 with | .ok fp => some (e.1, fp) | _ => none)

/-- Number of successfully fingerprinted files. -/
def okCount (files : List FileEntry) : Nat :=
  (okEntries files).length

/-- Number of files whose decode raises `UnidentifiedImageError` (each produces
one "Skipping corrupted or unsupported image" warning). -/
def unidCount (files : List FileEntry) : Nat :=
  files.countP (fun e => e.2 == DecodeOutcome.unidentified)

/-- Number of files whose processing raises some other exception. -/
def failCount (files : List FileEntry) : Nat :=
  files.countP (fun e => e.2 == DecodeOutcome.failed)

/-- First-of-two-options: `optOr a b` is `a` when `a` is `some`, else `b`. -/
def optOr {α : Type} (a b : Option α) : Option α :=
  match a with
  | some x => some x
  | none => b

/-- The keys of the `unique_images` dict, in insertion order. -/
def keysOf (d : HashTable) : List Fingerprint := d.map Prod.fst

/-- The path of the last element of `oks` carrying fingerprint `fp`, if any. -/
def lastPathIn (oks : List (String × Fingerprint)) (fp : Fingerprint) : Option String :=
  ((oks.filter (fun e => e.2 == fp)).getLast?).map (·.1)

/-- The path of the last successfully hashed file carrying fingerprint `fp`,
if any. -/
def lastPathFor (files : List FileEntry) (fp : Fingerprint) : Option String :=
  lastPathIn (okEntries files) fp

/-- The candidate destination name for collision counter `counter`:
`f"{base}_{counter}{ext}"` (photos2.py:145). -/
def collisionName (base ext : String) (counter : Nat) : String :=
  base ++ "_" ++ toString counter ++ ext

/-- The `while os.path.exists(dest_path)` loop of `process_unique_files`
(photos2.py:143-147): starting from `counter`, try `base_counter ext`,
`base_(counter+1) ext`, ... and return the first name not in `taken`.  The
loop always terminates because only finitely many files exist; the explicit
`fuel` bounds the search and is never exhausted when some free name lies
within it. -/
def findFreeName (taken : List String) (base ext : String) : Nat → Nat → String
  | 0, counter => collisionName base ext counter
  | fuel + 1, counter =>
      let cand := collisionName base ext counter
      if cand ∈ taken then findFreeName taken base ext fuel (counter + 1) else cand

/-- Destination-name resolution of `process_unique_files` (photos2.py:137-147)
for one file whose basename splits as `base ++ ext` (`os.path.splitext`):
keep `base ++ ext` if free, otherwise run the collision loop from counter 1.
`taken` is the finite set of names already present in the output directory,
so `taken.length + 1` counters always suffice to reach a free name. -/
def resolveDest (taken : List String) (base ext : String) : String :=
  if base ++ ext ∈ taken then findFreeName taken base ext (taken.length + 1) 1
  else base ++ ext

/-- Filesystem state observed by `main`: whether the input directory exists,
whether the output directory exists, and how many log files have been written
into the output directory. -/
structure FsState where
  inputExists : Bool
  outputExists : Bool
  logFileCount : Nat
deriving DecidableEq, Repr

/-- `setup_logging(output_dir)` (photos2.py:11-27): creates the output
directory if missing (photos2.py:13-14), then opens a timestamped log file
inside it (photos2.py:16-27). -/
def setup_logging (fs : FsState) : FsState :=
  let fs1 := if fs.outputExists then fs else { fs with outputExists := true }
  { fs1 with logFileCount := fs1.logFileCount + 1 }

/-- How a run of `main` ends, as far as the input-directory check: either
`sys.exit(code)` with the filesystem state at that moment, or control
proceeds past `scan_directory`'s existence check. -/
inductive MainOutcome where
  | exited (code : Nat) (fs : FsState)
  | proceeded (fs : FsState)
deriving DecidableEq, Repr

/-- `main` (photos2.py:156-190) up to and including `scan_directory`'s
input-existence check, in source order: `setup_logging(args.output_dir)`
first (photos2.py:171), then the threshold range validation with `sys.exit(1)`
(photos2.py:176-178), then `scan_directory`'s `sys.exit(1)` when the input
directory does not exist (photos2.py:48-50). -/
def mainUpToScan (fs : FsState) (threshold : ℤ) : MainOutcome :=
  let fs1 := setup_logging fs
  if threshold < 0 ∨ threshold > 100 then .exited 1 fs1
  else if fs.inputExists then .proceeded fs1
  else .exited 1 fs1

/-! ### Basic lemmas about the similarity score -/

lemma diffBits_self (h : Fingerprint) : diffBits h h = 0 := by
  induction h with
  | nil => rfl
  | cons b t ih =>
      simp only [diffBits] at ih ⊢
      rw [List.zip_cons_cons, List.countP_cons]
      simp [ih]

lemma diffBits_comm (h1 h2 : Fingerprint) : diffBits h1 h2 = diffBits h2 h1 := by
  induction h1 generalizing h2 with
  | nil => cases h2 <;> rfl
  | cons b t ih =>
      cases h2 with
      | nil => rfl
      | cons c s =>
          simp only [diffBits, List.zip_cons_cons, List.countP_cons] at *
          rw [ih s]
          rcases b <;> rcases c <;> rfl

lemma calculate_similarity_self (h : Fingerprint) : calculate_similarity h h = 100 := by
  simp [calculate_similarity, diffBits_self]

lemma calculate_similarity_comm (h1 h2 : Fingerprint) :
    calculate_similarity h1 h2 = calculate_similarity h2 h1 := by
  unfold calculate_similarity
  rcases eq_or_ne h1.length h2.length with heq | hne
  · simp [heq, diffBits_comm h1 h2]
  · simp [hne, Ne.symm hne]

/-! ### Lemmas about the hexadecimal serialization -/

lemma hexSerialize_length : ∀ b : List Bool, (hexSerialize b).length = b.length / 4
  | [] => by simp [hexSerialize]
  | [_] => by simp [hexSerialize]
  | [_, _] => by simp [hexSerialize]
  | [_, _, _] => by simp [hexSerialize]
  | b3 :: b2 :: b1 :: b0 :: rest => by
      simp only [hexSerialize, List.length_cons, hexSerialize_length rest]
      omega

lemma hexDiff_self : ∀ s : HexString, hexDiff s s = 0
  | [] => rfl
  | c :: s => by
      have ih := hexDiff_self s
      simp only [hexDiff] at ih ⊢
      rw [List.zip_cons_cons, List.countP_cons, ih]
      simp

lemma hexDigitOfBits_inj (a3 a2 a1 a0 c3 c2 c1 c0 : Bool) :
    hexDigitOfBits a3 a2 a1 a0 = hexDigitOfBits c3 c2 c1 c0
      ↔ (a3 = c3 ∧ a2 = c2 ∧ a1 = c1 ∧ a0 = c0) := by
  rcases a3 <;> rcases a2 <;> rcases a1 <;> rcases a0 <;>
    rcases c3 <;> rcases c2 <;> rcases c1 <;> rcases c0 <;> decide

lemma eq_of_diffBits_zero : ∀ (b1 b2 : List Bool), b1.length = b2.length →
    diffBits b1 b2 = 0 → b1 = b2
  | [], [], _, _ => rfl
  | [], _ :: _, hlen, _ => by simp at hlen
  | _ :: _, [], hlen, _ => by simp at hlen
  | a :: t1, b :: t2, hlen, hd => by
      simp only [diffBits, List.zip_cons_cons, List.countP_cons] at hd
      have hab : a = b := by
        by_contra hne
        simp [hne] at hd
      have ht : diffBits t1 t2 = 0 := by
        simp only [diffBits]
        omega
      rw [hab, eq_of_diffBits_zero t1 t2 (by simpa using hlen) ht]

lemma hexDiff_eq_length_of_all_ne : ∀ (b1 b2 : List Bool), b1.length = b2.length →
    (∀ p ∈ b1.zip b2, p.1 ≠ p.2) →
    hexDiff (hexSerialize b1) (hexSerialize b2) = (hexSerialize b1).length
  | [], b2, hlen, _ => by
      have h2 : hexSerialize b2 = [] := List.eq_nil_of_length_eq_zero
        (by rw [hexSerialize_length]; simp at hlen; omega)
      simp [hexSerialize, hexDiff, h2]
  | [_], b2, hlen, _ => by
      have h2 : hexSerialize b2 = [] := List.eq_nil_of_length_eq_zero
        (by rw [hexSerialize_length]; simp at hlen; omega)
      simp [hexSerialize, hexDiff, h2]
  | [_, _], b2, hlen, _ => by
      have h2 : hexSerialize b2 = [] := List.eq_nil_of_length_eq_zero
        (by rw [hexSerialize_length]; simp at hlen; omega)
      simp [hexSerialize, hexDiff, h2]
  | [_, _, _], b2, hlen, _ => by
      have h2 : hexSerialize b2 = [] := List.eq_nil_of_length_eq_zero
        (by rw [hexSerialize_length]; simp at hlen; omega)
      simp [hexSerialize, hexDiff, h2]
  | a3 :: a2 :: a1 :: a0 :: r1, b2, hlen, hall => by
      rcases b2 with _ | ⟨c3, b2⟩
      · simp only [List.length_cons, List.length_nil] at hlen; omega
      rcases b2 with _ | ⟨c2, b2⟩
      · simp only [List.length_cons, List.length_nil] at hlen; omega
      rcases b2 with _ | ⟨c1, b2⟩
      · simp only [List.length_cons, List.length_nil] at hlen; omega
      rcases b2 with _ | ⟨c0, r2⟩
      · simp only [List.length_cons, List.length_nil] at hlen; omega
      have hne3 : a3 ≠ c3 := by
        apply hall (a3, c3)
        rw [List.zip_cons_cons]
        exact List.mem_cons_self _ _
      have hlen' : r1.length = r2.length := by
        simp only [List.length_cons] at hlen
        omega
      have hall' : ∀ p ∈ r1.zip r2, p.1 ≠ p.2 := by
        intro p hp
        apply hall p
        simp only [List.zip_cons_cons, List.mem_cons]
        exact Or.inr (Or.inr (Or.inr (Or.inr hp)))
      have hnib : hexDigitOfBits a3 a2 a1 a0 ≠ hexDigitOfBits c3 c2 c1 c0 := by
        intro heq
        exact hne3 ((hexDigitOfBits_inj a3 a2 a1 a0 c3 c2 c1 c0).mp heq).1
      have hrec := hexDiff_eq_length_of_all_ne r1 r2 hlen' hall'
      simp only [hexSerialize, hexDiff, List.zip_cons_cons, List.countP_cons,
        List.length_cons] at hrec ⊢
      simp [hrec, hnib]

/-! ### Basic lemmas about `dictInsert` -/

lemma length_dictInsert_le (d : HashTable) (k : Fingerprint) (v : String) :
    (dictInsert d k v).length ≤ d.length + 1 := by
  unfold dictInsert
  split
  · simp
  · simp

lemma le_length_dictInsert (d : HashTable) (k : Fingerprint) (v : String) :
    d.length ≤ (dictInsert d k v).length := by
  unfold dictInsert
  split
  · simp
  · simp

lemma keysOf_dictInsert_of_mem (d : HashTable) (k : Fingerprint) (v : String)
    (h : (d.any (fun p => p.1 == k)) = true) :
    keysOf (dictInsert d k v) = keysOf d := by
  unfold dictInsert keysOf
  rw [if_pos h, List.map_map]
  apply List.map_congr_left
  intro p _
  by_cases hp : p.1 = k <;> simp [hp]

lemma keysOf_dictInsert_of_not_mem (d : HashTable) (k : Fingerprint) (v : String)
    (h : (d.any (fun p => p.1 == k)) = false) :
    keysOf (dictInsert d k v) = keysOf d ++ [k] := by
  unfold dictInsert keysOf
  rw [if_neg (by simp [h])]
  simp

lemma not_mem_keysOf_of_any_false (d : HashTable) (k : Fingerprint)
    (h : (d.any (fun p => p.1 == k)) = false) : k ∉ keysOf d := by
  intro hk
  rcases List.mem_map.mp hk with ⟨p, hp, hpk⟩
  have := List.any_eq_false.mp h p hp
  simp [hpk] at this

lemma nodup_keysOf_dictInsert (d : HashTable) (k : Fingerprint) (v : String)
    (h : (keysOf d).Nodup) : (keysOf (dictInsert d k v)).Nodup := by
  rcases hany : (d.any (fun p => p.1 == k)) with hf | ht
  · rw [keysOf_dictInsert_of_not_mem d k v hany]
    simp [List.nodup_append, h, not_mem_keysOf_of_any_false d k hany]
  · rw [keysOf_dictInsert_of_mem d k v hany]
    exact h

lemma dictLookup_nil (k : Fingerprint) : dictLookup [] k = none := rfl

lemma dictLookup_eq_none_of_not_mem (d : HashTable) (k : Fingerprint)
    (h : k ∉ keysOf d) : dictLookup d k = none := by
  unfold dictLookup
  rw [List.find?_eq_none.mpr]
  · rfl
  · intro p hp
    simp only [beq_iff_eq]
    intro hpk
    exact h (List.mem_map.mpr ⟨p, hp, hpk⟩)

lemma dictLookup_update_self (d : HashTable) (k : Fingerprint) (v : String)
    (hany : (d.any (fun p => p.1 == k)) = true) :
    dictLookup (d.map (fun p => if p.1 == k then (p.1, v) else p)) k = some v := by
  induction d with
  | nil => simp at hany
  | cons p d ih =>
      by_cases hp : p.1 = k
      · unfold dictLookup
        rw [List.map_cons, if_pos (by simp [hp]),
          List.find?_cons_of_pos _ (by simp [hp])]
        rfl
      · have hany' : (d.any (fun q => q.1 == k)) = true := by
          rcases List.any_eq_true.mp hany with ⟨q, hq, hqk⟩
          rcases List.mem_cons.mp hq with rfl | hq'
          · exact absurd (by simpa using hqk) hp
          · exact List.any_eq_true.mpr ⟨q, hq', hqk⟩
        unfold dictLookup at ih ⊢
        rw [List.map_cons, if_neg (by simp [hp]),
          List.find?_cons_of_neg _ (by simp [hp])]
        exact ih hany'

lemma dictLookup_update_other (d : HashTable) (k : Fingerprint) (v : String)
    (fp : Fingerprint) (hfp : fp ≠ k) :
    dictLookup (d.map (fun p => if p.1 == k then (p.1, v) else p)) fp = dictLookup d fp := by
  induction d with
  | nil => rfl
  | cons p d ih =>
      by_cases hp : p.1 = k
      · unfold dictLookup at ih ⊢
        rw [List.map_cons, if_pos (by simp [hp]),
          List.find?_cons_of_neg _ (by simp [hp, Ne.symm hfp]),
          List.find?_cons_of_neg _ (by simp [hp, Ne.symm hfp])]
        exact ih
      · by_cases hmatch : p.1 = fp
        · unfold dictLookup
          rw [List.map_cons, if_neg (by simp [hp]),
            List.find?_cons_of_pos _ (by simp [hmatch]),
            List.find?_cons_of_pos _ (by simp [hmatch])]
        · unfold dictLookup at ih ⊢
          rw [List.map_cons, if_neg (by simp [hp]),
            List.find?_cons_of_neg _ (by simp [hmatch]),
            List.find?_cons_of_neg _ (by simp [hmatch])]
          exact ih

lemma dictLookup_dictInsert (d : HashTable) (k : Fingerprint) (v : String) (fp : Fingerprint) :
    dictLookup (dictInsert d k v) fp = if fp = k then some v else dictLookup d fp := by
  rcases hany : (d.any (fun p => p.1 == k)) with hf | ht
  · -- fresh key: the pair is appended at the end
    unfold dictInsert
    rw [if_neg (by simp [hany])]
    unfold dictLookup
    rw [List.find?_append]
    by_cases hfp : fp = k
    · subst hfp
      rw [List.find?_eq_none.mpr, Option.none_or, if_pos rfl]
      · rw [List.find?_cons_of_pos _ (by simp)]
        rfl
      · intro p hp
        simp only [beq_iff_eq]
        intro hpk
        have := List.any_eq_false.mp hany p hp
        simp [hpk] at this
    · rw [if_neg hfp]
      have hlast : List.find? (fun p => p.1 == fp) [(k, v)] = none := by
        rw [List.find?_cons_of_neg _ (by simp [Ne.symm hfp]), List.find?_nil]
      rw [hlast]
      rcases hfind : d.find? (fun p => p.1 == fp) with _ | p <;>
        simp [dictLookup, hfind]
  · -- existing key: the first entry with that key gets the new value, keys unchanged
    unfold dictInsert
    rw [if_pos hany]
    by_cases hfp : fp = k
    · subst hfp
      rw [if_pos rfl]
      exact dictLookup_update_self d fp v hany
    · rw [if_neg hfp]
      exact dictLookup_update_other d k v fp hfp

/-! ### Decomposing `find_unique_images` into the per-outcome pieces -/

lemma okEntries_append (xs ys : List FileEntry) :
    okEntries (xs ++ ys) = okEntries xs ++ okEntries ys := by
  unfold okEntries
  exact List.filterMap_append xs ys _

lemma uniqueImages_foldl (t : ℤ) (files : List FileEntry) :
    ∀ st : FindState,
      (files.foldl (stepFile t) st).uniqueImages
        = (okEntries files).foldl (stepOk t) st.uniqueImages := by
  induction files with
  | nil => intro st; rfl
  | cons e files ih =>
      intro st
      rcases e with ⟨p, out⟩
      cases out with
      | ok fp => simpa [stepFile, okEntries] using ih _
      | unidentified => simpa [stepFile, okEntries] using ih _
      | failed => simpa [stepFile, okEntries] using ih _

lemma warnCount_foldl (t : ℤ) (files : List FileEntry) :
    ∀ st : FindState,
      (files.foldl (stepFile t) st).warnCount = st.warnCount + unidCount files := by
  induction files with
  | nil => intro st; simp [unidCount]
  | cons e files ih =>
      intro st
      rcases e with ⟨p, out⟩
      cases out with
      | ok fp =>
          rw [List.foldl_cons, ih]
          simp [stepFile, unidCount, List.countP_cons]
      | unidentified =>
          rw [List.foldl_cons, ih]
          simp only [stepFile, unidCount, List.countP_cons]
          simp
          omega
      | failed =>
          rw [List.foldl_cons, ih]
          simp [stepFile, unidCount, List.countP_cons]

lemma errorCount_foldl (t : ℤ) (files : List FileEntry) :
    ∀ st : FindState,
      (files.foldl (stepFile t) st).errorCount = st.errorCount + failCount files := by
  induction files with
  | nil => intro st; simp [failCount]
  | cons e files ih =>
      intro st
      rcases e with ⟨p, out⟩
      cases out with
      | ok fp =>
          rw [List.foldl_cons, ih]
          simp [stepFile, failCount, List.countP_cons]
      | unidentified =>
          rw [List.foldl_cons, ih]
          simp [stepFile, failCount, List.countP_cons]
      | failed =>
          rw [List.foldl_cons, ih]
          simp only [stepFile, failCount, List.countP_cons]
          simp
          omega

lemma find_unique_images_eq_foldl (files : List FileEntry) (t : ℤ) :
    find_unique_images files t = (okEntries files).foldl (stepOk t) [] := by
  unfold find_unique_images findRun
  exact uniqueImages_foldl t files _

/-! ### Lemmas about one `stepOk` iteration -/

lemma stepOk_nil (t : ℤ) (e : String × Fingerprint) : stepOk t [] e = [(e.2, e.1)] := by
  unfold stepOk dictInsert
  split <;> simp

lemma length_stepOk_le (t : ℤ) (d : HashTable) (e : String × Fingerprint) :
    (stepOk t d e).length ≤ d.length + 1 := by
  unfold stepOk
  split
  · split
    · omega
    · exact length_dictInsert_le d e.2 e.1
  · exact length_dictInsert_le d e.2 e.1

lemma le_length_stepOk (t : ℤ) (d : HashTable) (e : String × Fingerprint) :
    d.length ≤ (stepOk t d e).length := by
  unfold stepOk
  split
  · split
    · omega
    · exact le_length_dictInsert d e.2 e.1
  · exact le_length_dictInsert d e.2 e.1

lemma stepOk_of_similar (t : ℤ) (ht : 0 < t) (d : HashTable) (e : String × Fingerprint)
    (h : ∃ q ∈ d, (t : ℚ) ≤ calculate_similarity e.2 q.1) :
    stepOk t d e = d := by
  unfold stepOk
  rw [if_pos ht, if_pos]
  rcases h with ⟨q, hq, hsim⟩
  exact List.any_eq_true.mpr ⟨q, hq, by simpa using hsim⟩

lemma stepOk_of_not_similar (t : ℤ) (ht : 0 < t) (ht100 : t ≤ 100)
    (d : HashTable) (e : String × Fingerprint)
    (h : ¬ ∃ q ∈ d, (t : ℚ) ≤ calculate_similarity e.2 q.1) :
    stepOk t d e = d ++ [(e.2, e.1)] := by
  have hany : (d.any (fun p => decide ((t : ℚ) ≤ calculate_similarity e.2 p.1))) = false := by
    rw [List.any_eq_false]
    intro q hq
    simp only [decide_eq_true_eq]
    intro hsim
    exact h ⟨q, hq, hsim⟩
  have hkey : (d.any (fun p => p.1 == e.2)) = false := by
    rw [List.any_eq_false]
    intro q hq
    simp only [beq_iff_eq]
    intro hqk
    apply h
    refine ⟨q, hq, ?_⟩
    rw [hqk, calculate_similarity_self]
    exact_mod_cast ht100
  unfold stepOk
  rw [if_pos ht, if_neg (by simp [hany])]
  unfold dictInsert
  rw [if_neg (by simp [hkey])]

lemma stepOk_nonpos (t : ℤ) (ht : t ≤ 0) (d : HashTable) (e : String × Fingerprint) :
    stepOk t d e = dictInsert d e.2 e.1 := by
  unfold stepOk
  rw [if_neg (by omega)]

lemma foldl_stepOk_nonpos (t : ℤ) (ht : t ≤ 0) (oks : List (String × Fingerprint)) :
    ∀ d : HashTable, oks.foldl (stepOk t) d = oks.foldl (stepOk 0) d := by
  induction oks with
  | nil => intro d; rfl
  | cons e oks ih =>
      intro d
      rw [List.foldl_cons, List.foldl_cons, stepOk_nonpos t ht,
        stepOk_nonpos 0 le_rfl, ih]

/-! ### Exact mode: the dict maps each fingerprint to its last occurrence -/

lemma lastPathFor_eq (files : List FileEntry) (fp : Fingerprint) :
    lastPathFor files fp = lastPathIn (okEntries files) fp := rfl

lemma getLast?_cons_eq {α : Type} (a : α) (l : List α) :
    (a :: l).getLast? = optOr l.getLast? (some a) := by
  induction l generalizing a with
  | nil => rfl
  | cons b t ih =>
      rw [List.getLast?_cons_cons, ih b]
      rcases h : t.getLast? with _ | x <;> simp [optOr, h]

lemma lastPathIn_cons (e : String × Fingerprint) (oks : List (String × Fingerprint))
    (fp : Fingerprint) :
    lastPathIn (e :: oks) fp
      = if e.2 = fp then optOr (lastPathIn oks fp) (some e.1) else lastPathIn oks fp := by
  unfold lastPathIn
  by_cases he : e.2 = fp
  · rw [if_pos he, List.filter_cons_of_pos (by simp [he]), getLast?_cons_eq]
    rcases h : ((oks.filter (fun e => e.2 == fp)).getLast?) with _ | x <;> simp [optOr, h]
  · rw [if_neg he, List.filter_cons_of_neg (by simp [he])]

lemma dictLookup_foldl_insert (fp : Fingerprint) :
    ∀ (oks : List (String × Fingerprint)) (d : HashTable),
      dictLookup (oks.foldl (fun d e => dictInsert d e.2 e.1) d) fp
        = optOr (lastPathIn oks fp) (dictLookup d fp) := by
  intro oks
  induction oks with
  | nil =>
      intro d
      simp [lastPathIn, optOr]
  | cons e oks ih =>
      intro d
      rw [List.foldl_cons, ih (dictInsert d e.2 e.1), dictLookup_dictInsert,
        lastPathIn_cons]
      by_cases he : e.2 = fp
      · rw [if_pos he, if_pos he.symm]
        rcases h : lastPathIn oks fp with _ | x <;> simp [optOr, h]
      · rw [if_neg he, if_neg (fun hh => he hh.symm)]

lemma nodup_keysOf_foldl_insert :
    ∀ (oks : List (String × Fingerprint)) (d : HashTable),
      (keysOf d).Nodup → (keysOf (oks.foldl (fun d e => dictInsert d e.2 e.1) d)).Nodup := by
  intro oks
  induction oks with
  | nil => intro d h; exact h
  | cons e oks ih =>
      intro d h
      rw [List.foldl_cons]
      exact ih _ (nodup_keysOf_dictInsert d e.2 e.1 h)

/-! ### Cardinality bounds on the fold -/

lemma length_foldl_stepOk_le (t : ℤ) :
    ∀ (oks : List (String × Fingerprint)) (d : HashTable),
      (oks.foldl (stepOk t) d).length ≤ d.length + oks.length := by
  intro oks
  induction oks with
  | nil => intro d; simp
  | cons e oks ih =>
      intro d
      rw [List.foldl_cons]
      calc (oks.foldl (stepOk t) (stepOk t d e)).length
          ≤ (stepOk t d e).length + oks.length := ih _
        _ ≤ (d.length + 1) + oks.length := by
              have := length_stepOk_le t d e
              omega
        _ = d.length + (e :: oks).length := by simp; omega

lemma le_length_foldl_stepOk (t : ℤ) :
    ∀ (oks : List (String × Fingerprint)) (d : HashTable),
      d.length ≤ (oks.foldl (stepOk t) d).length := by
  intro oks
  induction oks with
  | nil => intro d; simp
  | cons e oks ih =>
      intro d
      rw [List.foldl_cons]
      exact le_trans (le_length_stepOk t d e) (ih _)

/-! ### Near-duplicate mode keeps representatives mutually dissimilar -/

lemma dissimilar_stepOk (t : ℤ) (ht : 0 < t) (d : HashTable) (e : String × Fingerprint)
    (hin : ∀ a ∈ keysOf d, ∀ b ∈ keysOf d, a ≠ b → calculate_similarity a b < (t : ℚ)) :
    ∀ a ∈ keysOf (stepOk t d e), ∀ b ∈ keysOf (stepOk t d e),
      a ≠ b → calculate_similarity a b < (t : ℚ) := by
  unfold stepOk
  rw [if_pos ht]
  rcases hany : (d.any (fun p => decide ((t : ℚ) ≤ calculate_similarity e.2 p.1))) with hf | htr
  · -- no accepted representative is similar: the new fingerprint is inserted
    rw [if_neg (by simp)]
    have hguard : ∀ q ∈ d, calculate_similarity e.2 q.1 < (t : ℚ) := by
      intro q hq
      have := List.any_eq_false.mp hany q hq
      simpa using this
    have hguard' : ∀ a ∈ keysOf d, calculate_similarity e.2 a < (t : ℚ) := by
      intro a ha
      rcases List.mem_map.mp ha with ⟨q, hq, rfl⟩
      exact hguard q hq
    rcases hkey : (d.any (fun p => p.1 == e.2)) with hkf | hkt
    · rw [keysOf_dictInsert_of_not_mem d e.2 e.1 hkey]
      intro a ha b hb hab
      rcases List.mem_append.mp ha with ha' | ha' <;>
        rcases List.mem_append.mp hb with hb' | hb'
      · exact hin a ha' b hb' hab
      · have hb2 : b = e.2 := by simpa using hb'
        subst hb2
        rw [calculate_similarity_comm]
        exact hguard' a ha'
      · have ha2 : a = e.2 := by simpa using ha'
        subst ha2
        exact hguard' b hb'
      · have ha2 : a = e.2 := by simpa using ha'
        have hb2 : b = e.2 := by simpa using hb'
        exact absurd (ha2.trans hb2.symm) hab
    · rw [keysOf_dictInsert_of_mem d e.2 e.1 hkey]
      exact hin
  · -- some accepted representative is similar: the dict is unchanged
    rw [if_pos (by simp [hany])]
    exact hin

lemma dissimilar_foldl_stepOk (t : ℤ) (ht : 0 < t) :
    ∀ (oks : List (String × Fingerprint)) (d : HashTable),
      (∀ a ∈ keysOf d, ∀ b ∈ keysOf d, a ≠ b → calculate_similarity a b < (t : ℚ)) →
      ∀ a ∈ keysOf (oks.foldl (stepOk t) d), ∀ b ∈ keysOf (oks.foldl (stepOk t) d),
        a ≠ b → calculate_similarity a b < (t : ℚ) := by
  intro oks
  induction oks with
  | nil => intro d h; exact h
  | cons e oks ih =>
      intro d h
      rw [List.foldl_cons]
      exact ih _ (dissimilar_stepOk t ht d e h)

/-! ### The collision-rename loop -/

lemma foldl_stepOk_zero_eq_insert :
    ∀ (oks : List (String × Fingerprint)) (d : HashTable),
      oks.foldl (stepOk 0) d = oks.foldl (fun d e => dictInsert d e.2 e.1) d := by
  intro oks
  induction oks with
  | nil => intro d; rfl
  | cons e oks ih =>
      intro d
      rw [List.foldl_cons, List.foldl_cons, stepOk_nonpos 0 le_rfl, ih]

lemma findFreeName_spec (taken : List String) (base ext : String) :
    ∀ (fuel start k : Nat), start ≤ k → k < start + fuel →
      collisionName base ext k ∉ taken →
      (∀ j, start ≤ j → j < k → collisionName base ext j ∈ taken) →
      findFreeName taken base ext fuel start = collisionName base ext k := by
  intro fuel
  induction fuel with
  | zero => intro start k h1 h2 _ _; omega
  | succ fuel ih =>
      intro start k h1 h2 hfree hmin
      unfold findFreeName
      rcases eq_or_lt_of_le h1 with rfl | hlt
      · rw [if_neg hfree]
      · rw [if_pos (hmin start le_rfl hlt)]
        exact ih (start + 1) k hlt (by omega) hfree
          (fun j hj1 hj2 => hmin j (by omega) hj2)

/-! ## The claims -/

/-- C1, counterexample: in exact mode two files with the byte-identical
fingerprint `[true]` do NOT keep the first file `a.jpg` as representative;
the dict assignment `unique_images[hash_value] = filepath` overwrites the
stored path, so `b.jpg` is kept. -/
theorem c1_counterexample :
    find_unique_images [("a.jpg", .ok [true]), ("b.jpg", .ok [true])] 0
      = [([true], "b.jpg")]
    ∧ ([true], "a.jpg") ∉ find_unique_images [("a.jpg", .ok [true]), ("b.jpg", .ok [true])] 0 := by
  decide

/-- C1 (amended): in exact mode (`threshold = 0`), `find_unique_images` keeps
exactly one representative per fingerprint value (the dict keys are distinct),
and the representative kept for a fingerprint is the LAST successfully hashed
file with that fingerprint in processing order — each later occurrence
overwrites the earlier one. -/
theorem c1_exact_mode_last_kept (files : List FileEntry) :
    (keysOf (find_unique_images files 0)).Nodup
    ∧ ∀ fp, dictLookup (find_unique_images files 0) fp = lastPathFor files fp := by
  constructor
  · rw [find_unique_images_eq_foldl, foldl_stepOk_zero_eq_insert]
    exact nodup_keysOf_foldl_insert (okEntries files) [] (by simp [keysOf])
  · intro fp
    rw [find_unique_images_eq_foldl, foldl_stepOk_zero_eq_insert, lastPathFor_eq,
      dictLookup_foldl_insert]
    rcases h : lastPathIn (okEntries files) fp with _ | x <;>
      simp [optOr, dictLookup_nil, h]

/-- C2: in near-duplicate mode (`0 < threshold ≤ 100`, the contract range),
each new successfully hashed image is checked against every representative
accepted so far: it is discarded exactly when some accepted representative has
similarity ≥ threshold with it, and otherwise it is appended as a new
representative keyed by its fingerprint. -/
theorem c2_greedy_accept_or_discard (t : ℤ) (ht : 0 < t) (ht100 : t ≤ 100)
    (files : List FileEntry) (p : String) (fp : Fingerprint) :
    ((∃ q ∈ find_unique_images files t, (t : ℚ) ≤ calculate_similarity fp q.1) →
        find_unique_images (files ++ [(p, .ok fp)]) t = find_unique_images files t)
    ∧ ((¬ ∃ q ∈ find_unique_images files t, (t : ℚ) ≤ calculate_similarity fp q.1) →
        find_unique_images (files ++ [(p, .ok fp)]) t
          = find_unique_images files t ++ [(fp, p)]) := by
  have hstep : find_unique_images (files ++ [(p, DecodeOutcome.ok fp)]) t
      = stepOk t (find_unique_images files t) (p, fp) := by
    rw [find_unique_images_eq_foldl, find_unique_images_eq_foldl, okEntries_append,
      List.foldl_append]
    rfl
  constructor
  · intro h
    rw [hstep]
    exact stepOk_of_similar t ht _ (p, fp) h
  · intro h
    rw [hstep]
    exact stepOk_of_not_similar t ht ht100 _ (p, fp) h

/-- C2 witness: on an empty dict nothing is similar, so the single file is
accepted as a new representative. -/
theorem c2_witness :
    find_unique_images ([] ++ [("a.jpg", .ok [true])]) 50
      = find_unique_images [] 50 ++ [([true], "a.jpg")] :=
  (c2_greedy_accept_or_discard 50 (by decide) (by decide) [] "a.jpg" [true]).2
    (by simp [find_unique_images, findRun])

/-- C3, counterexample: two 8-bit fingerprints differing in exactly `d = 1`
bit serialize to 2-character hexadecimal hash strings differing in 1
character, so `_calculate_similarity` returns `100 - 1*100/2 = 50` — not the
claimed `100 - d*100/L = 100 - 1*100/8 = 87.5`.  The code compares hexadecimal
CHARACTERS (nibbles), not bits. -/
theorem c3_counterexample :
    diffBits
        [false, false, false, false, false, false, false, false]
        [false, false, false, false, false, false, false, true] = 1
    ∧ ([false, false, false, false, false, false, false, false] : List Bool).length = 8
    ∧ calculate_similarity_hex
        (hexSerialize [false, false, false, false, false, false, false, false])
        (hexSerialize [false, false, false, false, false, false, false, true]) = 50
    ∧ calculate_similarity_hex
        (hexSerialize [false, false, false, false, false, false, false, false])
        (hexSerialize [false, false, false, false, false, false, false, true])
      ≠ 100 - ((diffBits
            [false, false, false, false, false, false, false, false]
            [false, false, false, false, false, false, false, true] : ℚ) * 100
          / (([false, false, false, false, false, false, false, false]
              : List Bool).length : ℚ)) := by
  have hd : diffBits [false, false, false, false, false, false, false, false]
      [false, false, false, false, false, false, false, true] = 1 := by decide
  have hx : hexDiff
      (hexSerialize [false, false, false, false, false, false, false, false])
      (hexSerialize [false, false, false, false, false, false, false, true]) = 1 := by decide
  have hlen1 : (hexSerialize
      [false, false, false, false, false, false, false, false]).length = 2 := by decide
  have hlen2 : (hexSerialize
      [false, false, false, false, false, false, false, true]).length = 2 := by decide
  have hval : calculate_similarity_hex
      (hexSerialize [false, false, false, false, false, false, false, false])
      (hexSerialize [false, false, false, false, false, false, false, true]) = 50 := by
    unfold calculate_similarity_hex
    rw [if_neg (by rw [hlen1, hlen2]; simp), hx, hlen1]
    norm_num
  have h8 : ([false, false, false, false, false, false, false, false]
      : List Bool).length = 8 := by decide
  refine ⟨hd, h8, hval, ?_⟩
  rw [hval, hd, h8]
  intro hcontra
  norm_num at hcontra

/-- C3 (amended): `_calculate_similarity` operates on the hexadecimal
serialization, so for fingerprints of equal bit-length `L` (divisible by 4,
positive) the score equals exactly `100 - c*100/N` where `c` is the number of
differing CHARACTERS of the two hash strings and `N = L/4` their character
count; the bit-level boundary values survive: the score is `100` when the
fingerprints differ in `d = 0` bits and `0` when they differ in `d = L` bits. -/
theorem c3_hex_similarity_formula (b1 b2 : List Bool) (hlen : b1.length = b2.length)
    (hdvd : b1.length % 4 = 0) (hpos : 0 < b1.length) :
    calculate_similarity_hex (hexSerialize b1) (hexSerialize b2)
        = 100 - (hexDiff (hexSerialize b1) (hexSerialize b2) : ℚ) * 100
            / ((hexSerialize b1).length : ℚ)
    ∧ (diffBits b1 b2 = 0 →
        calculate_similarity_hex (hexSerialize b1) (hexSerialize b2) = 100)
    ∧ (diffBits b1 b2 = b1.length →
        calculate_similarity_hex (hexSerialize b1) (hexSerialize b2) = 0) := by
  have hserlen : (hexSerialize b1).length = (hexSerialize b2).length := by
    rw [hexSerialize_length, hexSerialize_length, hlen]
  have hNpos : 0 < (hexSerialize b1).length := by
    rw [hexSerialize_length]
    omega
  have hN : (((hexSerialize b1).length : ℚ)) ≠ 0 := Nat.cast_ne_zero.mpr hNpos.ne'
  have hform : calculate_similarity_hex (hexSerialize b1) (hexSerialize b2)
      = 100 - (hexDiff (hexSerialize b1) (hexSerialize b2) : ℚ) * 100
          / ((hexSerialize b1).length : ℚ) := by
    unfold calculate_similarity_hex
    rw [if_neg (by simp [hserlen])]
  refine ⟨hform, ?_, ?_⟩
  · intro h0
    have hbeq : b1 = b2 := eq_of_diffBits_zero b1 b2 hlen h0
    rw [hform, hbeq, hexDiff_self]
    norm_num
  · intro hd
    have hzlen : (b1.zip b2).length = b1.length := by
      rw [List.length_zip, hlen]
      exact Nat.min_self _
    have hcount : (b1.zip b2).countP (fun b => b.1 != b.2) = (b1.zip b2).length := by
      simp only [diffBits] at hd
      rw [hd, hzlen]
    have hall : ∀ p ∈ b1.zip b2, p.1 ≠ p.2 := by
      intro p hp
      have := List.countP_eq_length.mp hcount p hp
      simpa using this
    rw [hform, hexDiff_eq_length_of_all_ne b1 b2 hlen hall]
    field_simp

/-- C3 witness at the 4-bit pair `0000` / `1111` (`d = L = 4`, one character). -/
theorem c3_witness :
    calculate_similarity_hex (hexSerialize [false, false, false, false])
        (hexSerialize [true, true, true, true])
      = 100 - (hexDiff (hexSerialize [false, false, false, false])
            (hexSerialize [true, true, true, true]) : ℚ) * 100
          / ((hexSerialize [false, false, false, false]).length : ℚ)
    ∧ (diffBits [false, false, false, false] [true, true, true, true] = 0 →
        calculate_similarity_hex (hexSerialize [false, false, false, false])
          (hexSerialize [true, true, true, true]) = 100)
    ∧ (diffBits [false, false, false, false] [true, true, true, true]
          = ([false, false, false, false] : List Bool).length →
        calculate_similarity_hex (hexSerialize [false, false, false, false])
          (hexSerialize [true, true, true, true]) = 0) :=
  c3_hex_similarity_formula [false, false, false, false] [true, true, true, true]
    (by decide) (by decide) (by decide)

/-- C4: for every input list and threshold, the number of representatives is
at most the number of successfully fingerprinted images, is at least 1 when
that number is at least 1, and a single successfully fingerprinted image
yields a one-element representative set. -/
theorem c4_representative_count (files : List FileEntry) (t : ℤ) :
    (find_unique_images files t).length ≤ okCount files
    ∧ (1 ≤ okCount files → 1 ≤ (find_unique_images files t).length)
    ∧ (∀ p fp, (find_unique_images [(p, DecodeOutcome.ok fp)] t).length = 1) := by
  refine ⟨?_, ?_, ?_⟩
  · rw [find_unique_images_eq_foldl]
    simpa [okCount] using length_foldl_stepOk_le t (okEntries files) []
  · intro h
    rw [find_unique_images_eq_foldl]
    rcases hoks : okEntries files with _ | ⟨e, oks⟩
    · have hz : okCount files = 0 := by
        unfold okCount
        rw [hoks]
        rfl
      omega
    · rw [List.foldl_cons, stepOk_nil]
      have := le_length_foldl_stepOk t oks [(e.2, e.1)]
      simpa using this
  · intro p fp
    have hok : okEntries [(p, DecodeOutcome.ok fp)] = [(p, fp)] := rfl
    rw [find_unique_images_eq_foldl, hok, List.foldl_cons, stepOk_nil]
    rfl

/-- C4 witness at a one-file input with threshold 0. -/
theorem c4_witness :
    (find_unique_images [("a.jpg", DecodeOutcome.ok [true])] 0).length
        ≤ okCount [("a.jpg", DecodeOutcome.ok [true])]
    ∧ 1 ≤ (find_unique_images [("a.jpg", DecodeOutcome.ok [true])] 0).length :=
  ⟨(c4_representative_count [("a.jpg", DecodeOutcome.ok [true])] 0).1,
   (c4_representative_count [("a.jpg", DecodeOutcome.ok [true])] 0).2.1 (by decide)⟩

/-- C5: fingerprints of unequal length get similarity `0.0` rather than an
error, so with any positive threshold an unequal-length comparison never makes
two images duplicates. -/
theorem c5_unequal_length_zero (h1 h2 : Fingerprint) (hne : h1.length ≠ h2.length) :
    calculate_similarity h1 h2 = 0
    ∧ ∀ t : ℤ, 0 < t → calculate_similarity h1 h2 < (t : ℚ) := by
  have h0 : calculate_similarity h1 h2 = 0 := by
    unfold calculate_similarity
    rw [if_pos hne]
  refine ⟨h0, fun t ht => ?_⟩
  rw [h0]
  exact_mod_cast ht

/-- C5 witness at `h1 = [true]`, `h2 = []`, threshold 1. -/
theorem c5_witness :
    calculate_similarity [true] [] = 0
    ∧ calculate_similarity [true] [] < ((1 : ℤ) : ℚ) :=
  ⟨(c5_unequal_length_zero [true] [] (by decide)).1,
   (c5_unequal_length_zero [true] [] (by decide)).2 1 (by decide)⟩

/-- C6, counterexample: with a nonexistent input directory the process does
exit with code 1, but NOT before the output directory is touched — `main`
calls `setup_logging(args.output_dir)` first, which creates the output
directory and writes a log file into it, and only afterwards does
`scan_directory` check the input directory and exit. -/
theorem c6_counterexample :
    mainUpToScan ⟨false, false, 0⟩ 0 = MainOutcome.exited 1 ⟨false, true, 1⟩
    ∧ mainUpToScan ⟨false, false, 0⟩ 0 ≠ MainOutcome.exited 1 ⟨false, false, 0⟩ := by
  decide

/-- C6 (amended): for every run whose input directory does not exist (and an
in-range threshold), the process exits with code 1, but only after the output
directory has been created (if missing) and one log file has been written into
it by `setup_logging`. -/
theorem c6_exit_one_after_output_touched (fs : FsState) (t : ℤ)
    (hin : fs.inputExists = false) (ht0 : 0 ≤ t) (ht100 : t ≤ 100) :
    mainUpToScan fs t
      = MainOutcome.exited 1 ⟨fs.inputExists, true, fs.logFileCount + 1⟩ := by
  rcases fs with ⟨inp, outp, n⟩
  simp only at hin
  subst hin
  have hth : ¬ (t < 0 ∨ t > 100) := by omega
  cases outp <;> simp [mainUpToScan, setup_logging, hth]

/-- C6 witness: concrete run with missing input, missing output, threshold 0. -/
theorem c6_witness :
    mainUpToScan ⟨false, false, 0⟩ 0 = MainOutcome.exited 1 ⟨false, true, 0 + 1⟩ :=
  c6_exit_one_after_output_touched ⟨false, false, 0⟩ 0 rfl (by decide) (by decide)

/-- C7: a file whose decode raises `UnidentifiedImageError` is skipped with
one warning and no other effect: the run continues through the remaining
files, the resulting dict is the one obtained with that file removed, and
exactly one extra warning is logged.  In particular the scenario of one
corrupt file plus two valid distinct images completes with a representative
set of size 2 and one skipped-decode warning. -/
theorem c7_corrupt_file_skipped (t : ℤ) (pre post : List FileEntry) (p : String) :
    ((findRun (pre ++ (p, DecodeOutcome.unidentified) :: post) t).uniqueImages
        = (findRun (pre ++ post) t).uniqueImages
      ∧ (findRun (pre ++ (p, DecodeOutcome.unidentified) :: post) t).warnCount
        = (findRun (pre ++ post) t).warnCount + 1
      ∧ (findRun (pre ++ (p, DecodeOutcome.unidentified) :: post) t).errorCount
        = (findRun (pre ++ post) t).errorCount)
    ∧ ((find_unique_images
          [("bad.jpg", DecodeOutcome.unidentified), ("a.jpg", DecodeOutcome.ok [true]),
           ("b.jpg", DecodeOutcome.ok [false])] 0).length = 2
      ∧ (findRun
          [("bad.jpg", DecodeOutcome.unidentified), ("a.jpg", DecodeOutcome.ok [true]),
           ("b.jpg", DecodeOutcome.ok [false])] 0).warnCount = 1) := by
  have hok : okEntries (pre ++ (p, DecodeOutcome.unidentified) :: post)
      = okEntries (pre ++ post) := by
    rw [okEntries_append, okEntries_append]
    rfl
  refine ⟨⟨?_, ?_, ?_⟩, by decide, by decide⟩
  · unfold findRun
    rw [uniqueImages_foldl, uniqueImages_foldl, hok]
  · unfold findRun
    rw [warnCount_foldl, warnCount_foldl]
    simp only [unidCount, List.countP_append, List.countP_cons]
    simp
    omega
  · unfold findRun
    rw [errorCount_foldl, errorCount_foldl]
    simp only [failCount, List.countP_append, List.countP_cons]
    simp

/-- C8: a destination filename collision is resolved by trying `base_1 ext`,
`base_2 ext`, ... with counters from 1, taking the first name not already
present; in particular with `photo.jpg` taken and `photo_1.jpg` free, the
file lands as `photo_1.jpg`. -/
theorem c8_collision_rename (taken : List String) (base ext : String) (k : Nat)
    (hcol : base ++ ext ∈ taken) (hk : 1 ≤ k) (hkb : k ≤ taken.length + 1)
    (hfree : collisionName base ext k ∉ taken)
    (hmin : ∀ j, 1 ≤ j → j < k → collisionName base ext j ∈ taken) :
    resolveDest taken base ext = collisionName base ext k := by
  unfold resolveDest
  rw [if_pos hcol]
  exact findFreeName_spec taken base ext (taken.length + 1) 1 k hk (by omega) hfree hmin

/-- C8 witness: both files resolve to `photo.jpg`; with `photo.jpg` taken the
second one lands as `photo_1.jpg`. -/
theorem c8_witness :
    resolveDest ["photo.jpg"] "photo" ".jpg" = collisionName "photo" ".jpg" 1
    ∧ collisionName "photo" ".jpg" 1 = "photo_1.jpg" :=
  ⟨c8_collision_rename ["photo.jpg"] "photo" ".jpg" 1 (by decide) (by decide) (by decide)
      (by decide) (fun j h1 h2 => absurd h2 (by omega)),
   by decide⟩

/-- C9: with any positive threshold, the representatives returned by
`find_unique_images` are mutually dissimilar: any two distinct fingerprints
among the returned keys have similarity strictly below the threshold. -/
theorem c9_representatives_dissimilar (t : ℤ) (ht : 0 < t) (files : List FileEntry) :
    ∀ a ∈ keysOf (find_unique_images files t), ∀ b ∈ keysOf (find_unique_images files t),
      a ≠ b → calculate_similarity a b < (t : ℚ) := by
  rw [find_unique_images_eq_foldl]
  exact dissimilar_foldl_stepOk t ht (okEntries files) [] (by simp [keysOf])

/-- C9 witness: a concrete threshold-50 run accepting two dissimilar
fingerprints. -/
theorem c9_witness :
    calculate_similarity [true, true] [false, false] < ((50 : ℤ) : ℚ) := by
  have hguard : ¬ ∃ q ∈ ([([true, true], "a.jpg")] : HashTable),
      ((50 : ℤ) : ℚ) ≤ calculate_similarity [false, false] q.1 := by
    rintro ⟨q, hq, hsim⟩
    rw [List.mem_singleton] at hq
    subst hq
    simp only [calculate_similarity, diffBits] at hsim
    norm_num [List.countP_cons] at hsim
  have hrun : find_unique_images
      [("a.jpg", DecodeOutcome.ok [true, true]), ("b.jpg", DecodeOutcome.ok [false, false])] 50
      = [([true, true], "a.jpg"), ([false, false], "b.jpg")] := by
    have hstep := stepOk_of_not_similar 50 (by decide) (by decide)
      [([true, true], "a.jpg")] ("b.jpg", [false, false]) hguard
    rw [find_unique_images_eq_foldl,
      show okEntries [("a.jpg", DecodeOutcome.ok [true, true]),
        ("b.jpg", DecodeOutcome.ok [false, false])]
        = [("a.jpg", [true, true]), ("b.jpg", [false, false])] from rfl,
      List.foldl_cons, stepOk_nil, List.foldl_cons, hstep]
    rfl
  exact c9_representatives_dissimilar 50 (by decide)
    [("a.jpg", DecodeOutcome.ok [true, true]), ("b.jpg", DecodeOutcome.ok [false, false])]
    [true, true] (by rw [hrun]; simp [keysOf])
    [false, false] (by rw [hrun]; simp [keysOf])
    (by decide)

/-- C10: every threshold ≤ 0, negative values included, takes the same
`else` branch as threshold 0 and returns exactly the same representative
mapping: negative thresholds silently select exact mode. -/
theorem c10_nonpositive_is_exact_mode (t : ℤ) (ht : t ≤ 0) (files : List FileEntry) :
    find_unique_images files t = find_unique_images files 0 := by
  rw [find_unique_images_eq_foldl, find_unique_images_eq_foldl]
  exact foldl_stepOk_nonpos t ht (okEntries files) []

/-- C10 witness at threshold `-5`. -/
theorem c10_witness :
    find_unique_images [("a.jpg", DecodeOutcome.ok [true])] (-5)
      = find_unique_images [("a.jpg", DecodeOutcome.ok [true])] 0 :=
  c10_nonpositive_is_exact_mode (-5) (by decide) [("a.jpg", DecodeOutcome.ok [true])]
